import Mathlib

/-!
Verification of the flashcard study-session core of the AI Flashcards app.

The definitions below are shallow embeddings of the TypeScript sources:

* `FlashcardState`, `flipCard`, `nextCard`, `previousCard`, `goToCard`,
  `resetDeck`, and the two `useEffect` bodies come from
  `src/hooks/useFlashcardState.ts`.
* `flashCardSwipeIntent` comes from the pan-gesture end handler of
  `src/components/FlashCard.tsx` (the recognizer attached to the rendered
  card), and `handleSwipeLeft` / `handleSwipeRight` / `handleFlip` from
  `src/screens/FlashcardsScreen.tsx`.
* `panGestureOnEnd` comes from the `onEnd` branch of
  `src/hooks/useFlashcardGestures.ts`.
* `jsRound`, `calculateProgress`, `calculateScore`, `saveProgress`,
  `loadProgress`, `saveDeckStatistics`, `loadDeckStatistics` come from the
  `flashcardUtils` module, and `completionStatistics` from the completion
  effect of the `useFlashcards` hook.

JavaScript numbers are modelled as exact rationals (`ℚ`) where fractional
values occur (pixels, velocities, progress percentages) and as integers
(`ℤ`/`ℕ`) for indices, counters and timestamps.  `Math.round` is modelled
by `jsRound` (`⌊q + 1/2⌋`, which matches the half-up rounding of JavaScript on
the non-negative values that occur here).
-/

namespace Flashcards

/-- Session state of `useFlashcardState` (`currentCardIndex`, `isFlipped`,
`isComplete`, `progress`).  The index is an integer because the JavaScript
code never clamps it to a machine width; `progress` is the raw JavaScript
number, kept as an exact rational. -/
structure FlashcardState where
  currentCardIndex : ℤ
  isFlipped : Bool
  isComplete : Bool
  progress : ℚ
deriving Repr, DecidableEq

/-- Initial `useState` value of `useFlashcardState`. -/
def initState : FlashcardState :=
  { currentCardIndex := 0, isFlipped := false, isComplete := false, progress := 0 }

/-- The progress-recomputation effect of `useFlashcardState` (lines 17–21):
`progress := cards.length > 0 ? (currentCardIndex / cards.length) * 100 : 0`. -/
def progressEffect (len : ℕ) (s : FlashcardState) : FlashcardState :=
  { s with progress := if 0 < len then ((s.currentCardIndex : ℚ) / (len : ℚ)) * 100 else 0 }

/-- The completion-check effect of `useFlashcardState` (lines 23–29):
sets `isComplete` when `currentCardIndex >= cards.length && cards.length > 0`. -/
def completionEffect (len : ℕ) (s : FlashcardState) : FlashcardState :=
  if (len : ℤ) ≤ s.currentCardIndex ∧ 0 < len then { s with isComplete := true } else s

/-- Both effects, in source order.  They are keyed on
`[state.currentCardIndex, cards.length]`, so they run exactly when the
index changes (see `applyAction`). -/
def runEffects (len : ℕ) (s : FlashcardState) : FlashcardState :=
  completionEffect len (progressEffect len s)

/-- `flipCard` action: toggles `isFlipped` unconditionally. -/
def flipCard (s : FlashcardState) : FlashcardState :=
  { s with isFlipped := !s.isFlipped }

/-- `nextCard` action: advance if `currentCardIndex < cards.length - 1`,
otherwise move to the completion state `currentCardIndex = cards.length`. -/
def nextCard (len : ℕ) (s : FlashcardState) : FlashcardState :=
  if s.currentCardIndex < (len : ℤ) - 1 then
    { s with currentCardIndex := s.currentCardIndex + 1, isFlipped := false }
  else
    { s with currentCardIndex := (len : ℤ), isFlipped := false, isComplete := true }

/-- `previousCard` action: retreat when `currentCardIndex > 0`, clearing
`isFlipped` and `isComplete`; no-op otherwise. -/
def previousCard (s : FlashcardState) : FlashcardState :=
  if 0 < s.currentCardIndex then
    { s with currentCardIndex := s.currentCardIndex - 1, isFlipped := false, isComplete := false }
  else s

/-- `goToCard` action: jump to `i` when `0 ≤ i < cards.length`, clearing
`isFlipped` and `isComplete`; silent no-op otherwise. -/
def goToCard (len : ℕ) (i : ℤ) (s : FlashcardState) : FlashcardState :=
  if 0 ≤ i ∧ i < (len : ℤ) then
    { s with currentCardIndex := i, isFlipped := false, isComplete := false }
  else s

/-- `resetDeck` action: replaces the whole state by the initial one. -/
def resetDeck (_s : FlashcardState) : FlashcardState := initState

/-- The five session actions exposed by `useFlashcardState`. -/
inductive SessionAction where
  | flip
  | next
  | prev
  | goTo (i : ℤ)
  | reset
deriving Repr, DecidableEq

/-- Raw `setState` part of each action. -/
def runAction (len : ℕ) : SessionAction → FlashcardState → FlashcardState
  | .flip, s => flipCard s
  | .next, s => nextCard len s
  | .prev, s => previousCard s
  | .goTo i, s => goToCard len i s
  | .reset, s => resetDeck s

/-- One action followed by the two `useEffect` bodies.  Their dependency
array is `[state.currentCardIndex, cards.length]`, so they re-run exactly
when the action changed the index. -/
def applyAction (len : ℕ) (a : SessionAction) (s : FlashcardState) : FlashcardState :=
  let s1 := runAction len a s
  if s1.currentCardIndex = s.currentCardIndex then s1 else runEffects len s1

/-- `n` consecutive `nextCard` invocations (each with its effects). -/
def advanceN (len : ℕ) : ℕ → FlashcardState → FlashcardState
  | 0, s => s
  | n + 1, s => applyAction len .next (advanceN len n s)

/-- The session invariant: the index stays within `[0, cards.length]`,
`isComplete` implies the index sits at `cards.length`, and for a nonempty
deck the converse holds as well. -/
def sessionInv (len : ℕ) (s : FlashcardState) : Prop :=
  0 ≤ s.currentCardIndex ∧ s.currentCardIndex ≤ (len : ℤ) ∧
    (s.isComplete = true → s.currentCardIndex = (len : ℤ)) ∧
    (0 < len → s.currentCardIndex = (len : ℤ) → s.isComplete = true)

/-- Exact-progress invariant: `progress` holds the unrounded value
`(currentCardIndex / cards.length) * 100` (0 for an empty deck). -/
def progressInv (len : ℕ) (s : FlashcardState) : Prop :=
  s.progress = if 0 < len then ((s.currentCardIndex : ℚ) / (len : ℚ)) * 100 else 0

/-! ## Gesture recognizers

The repository contains two pan-gesture end handlers.  The one attached to
the rendered card is `handlePanGestureStateChange` in
`src/components/FlashCard.tsx`; it looks only at `translationX` and
`velocityX`.  The hook `src/hooks/useFlashcardGestures.ts` contains a second
`onEnd` handler (with a vertical-drift rejection and a stricter velocity
branch) whose callbacks are wired with the opposite naming. -/

/-- Directional swipe intent produced by `FlashCard.tsx`:
`right` fires `onSwipeRight` (retreat), `left` fires `onSwipeLeft`
(advance), `stay` only springs the card back. -/
inductive SwipeIntent where
  | right
  | left
  | stay
deriving Repr, DecidableEq

/-- `handlePanGestureStateChange` of `FlashCard.tsx` (lines 86–110):
`swipeThreshold = SCREEN_WIDTH * 0.25`, `velocityThreshold = 500`;
`translationX > swipeThreshold || velocityX > velocityThreshold` selects the
right intent, else `translationX < -swipeThreshold || velocityX <
-velocityThreshold` selects the left intent. -/
def flashCardSwipeIntent (screenWidth tx vx : ℚ) : SwipeIntent :=
  let swipeThreshold := screenWidth * (25 / 100)
  let velocityThreshold : ℚ := 500
  if swipeThreshold < tx ∨ velocityThreshold < vx then .right
  else if tx < -swipeThreshold ∨ vx < -velocityThreshold then .left
  else .stay

/-- Outcome of the `onEnd` branch of `useFlashcardGestures.ts`:
`swipeLeft` fires `onSwipeLeft`, `swipeRight` fires `onSwipeRight`,
`snapBack` springs the card back to center. -/
inductive GestureOutcome where
  | swipeLeft
  | swipeRight
  | snapBack
deriving Repr, DecidableEq

/-- `panGestureHandler.onEnd` of `useFlashcardGestures.ts` (lines 142–199):
rejects the drag when `|Δy| > |Δx| * 0.7`; otherwise
`shouldSwipeLeft = (Δx > SCREEN_WIDTH*0.25 || (Δx > 50 && vx > 300)) && canSwipeLeft`
and symmetrically `shouldSwipeRight`, tested in that order. -/
def panGestureOnEnd (screenWidth tx ty vx : ℚ)
    (canSwipeLeft canSwipeRight : Bool) : GestureOutcome :=
  let swipeThreshold := screenWidth * (25 / 100)
  let absTranslationX := |tx|
  let absTranslationY := |ty|
  if absTranslationX * (7 / 10) < absTranslationY then .snapBack
  else if (swipeThreshold < tx ∨ (50 < tx ∧ 300 < vx)) ∧ canSwipeLeft = true then .swipeLeft
  else if (tx < -swipeThreshold ∨ (tx < -50 ∧ vx < -300)) ∧ canSwipeRight = true then .swipeRight
  else .snapBack

/-! ## Screen-level gesture handlers (`FlashcardsScreen.tsx`) -/

/-- The screen-level per-interaction state: the flashcard state plus the
`lastSwipeTime` ref and the `isAnimating` flag of `FlashcardsScreen.tsx`. -/
structure ScreenSession where
  fs : FlashcardState
  lastSwipeTime : ℤ
  animating : Bool
deriving Repr, DecidableEq

/-- `SWIPE_COOLDOWN = 300` ms (`FlashcardsScreen.tsx` line 78). -/
def SWIPE_COOLDOWN : ℤ := 300

/-- Selector `canGoNext = currentCardIndex < cards.length - 1`. -/
def canGoNext (len : ℕ) (s : FlashcardState) : Bool :=
  decide (s.currentCardIndex < (len : ℤ) - 1)

/-- Selector `canGoPrevious = currentCardIndex > 0`. -/
def canGoPrevious (s : FlashcardState) : Bool :=
  decide (0 < s.currentCardIndex)

/-- `handleSwipeLeft` of `FlashcardsScreen.tsx` (lines 115–139): drop the
gesture inside the 300 ms cooldown or while animating; otherwise record the
time and, when `canGoNext`, run `nextCard` (the settled state after the
200 ms exit animation, when `isAnimating` is false again). -/
def handleSwipeLeft (len : ℕ) (now : ℤ) (sess : ScreenSession) : ScreenSession :=
  if now - sess.lastSwipeTime < SWIPE_COOLDOWN ∨ sess.animating = true then sess
  else
    let sess1 := { sess with lastSwipeTime := now }
    if canGoNext len sess.fs then { sess1 with fs := applyAction len .next sess.fs }
    else sess1

/-- `handleSwipeRight` of `FlashcardsScreen.tsx` (lines 141–165): as
`handleSwipeLeft`, but gated by `canGoPrevious` and running `previousCard`. -/
def handleSwipeRight (len : ℕ) (now : ℤ) (sess : ScreenSession) : ScreenSession :=
  if now - sess.lastSwipeTime < SWIPE_COOLDOWN ∨ sess.animating = true then sess
  else
    let sess1 := { sess with lastSwipeTime := now }
    if canGoPrevious sess.fs then { sess1 with fs := applyAction len .prev sess.fs }
    else sess1

/-- `handleFlip` of `FlashcardsScreen.tsx` (lines 167–171): flips unless a
card-transition animation is running.  There is no time-based check. -/
def handleFlip (sess : ScreenSession) : ScreenSession :=
  if sess.animating = true then sess
  else { sess with fs := flipCard sess.fs }

/-- End-to-end processing of one completed drag on the rendered card:
`FlashCard.tsx` classifies the drag and fires `onSwipeRight` /
`onSwipeLeft`, which the screen wires to `handleSwipeRight` /
`handleSwipeLeft`. -/
def processDrag (screenWidth : ℚ) (len : ℕ) (now : ℤ) (tx vx : ℚ)
    (sess : ScreenSession) : ScreenSession :=
  match flashCardSwipeIntent screenWidth tx vx with
  | .right => handleSwipeRight len now sess
  | .left => handleSwipeLeft len now sess
  | .stay => sess

/-- The screen session is ready to accept a gesture: no animation running
and the cooldown window has elapsed. -/
def sessionReady (now : ℤ) (sess : ScreenSession) : Prop :=
  sess.animating = false ∧ SWIPE_COOLDOWN ≤ now - sess.lastSwipeTime

/-! ## `flashcardUtils` numeric helpers -/

/-- JavaScript `Math.round`: round half up, `⌊q + 1/2⌋`. -/
def jsRound (q : ℚ) : ℤ := ⌊q + 1 / 2⌋

/-- `flashcardUtils.calculateProgress`: `0` for an empty deck, otherwise
`Math.round((currentIndex / totalCards) * 100)`. -/
def calculateProgress (currentIndex : ℤ) (totalCards : ℕ) : ℤ :=
  if totalCards = 0 then 0
  else jsRound (((currentIndex : ℚ) / (totalCards : ℚ)) * 100)

/-- `flashcardUtils.calculateScore`: `0` when nothing was answered,
otherwise `Math.round((correctAnswers / totalAnswers) * 100)`. -/
def calculateScore (correctAnswers : ℕ) (totalAnswers : ℕ) : ℤ :=
  if totalAnswers = 0 then 0
  else jsRound (((correctAnswers : ℚ) / (totalAnswers : ℚ)) * 100)

/-! ## Persistence -/

/-- `FlashcardProgress` record persisted under the `flashcard_progress`
namespace (`flashcardUtils` in the sources). -/
structure FlashcardProgress where
  deckId : String
  currentCardIndex : ℤ
  totalStudyTime : ℤ
  correctAnswers : ℕ
  totalAnswers : ℕ
deriving Repr, DecidableEq

/-- `DeckStatistics` record persisted under the `deck_statistics`
namespace. -/
structure DeckStatistics where
  deckId : String
  timesCompleted : ℕ
  averageScore : ℤ
  lastCompletedAt : String
  totalStudyTime : ℤ
  favoriteCards : List String
deriving Repr, DecidableEq

/-- Modelled from the spec: the key-value persistence adapter `storage`
(`src/utils/storage.ts` is imported by the sources but its file is not part
of them).  Spec §6 gives the contract `get(key) → value | absent`,
`set(key, value) → success` over namespaced string keys.  The two
namespaces `flashcardUtils` uses are modelled as optional JavaScript
records (maps from deck id), each `none` until first written. -/
structure Storage where
  flashcardProgress : Option (String → Option FlashcardProgress)
  deckStatistics : Option (String → Option DeckStatistics)

/-- `flashcardUtils.saveProgress`: read the stored record (`|| {}` when
absent), assign `existingProgresses[deckId] = progress`, write it back. -/
def saveProgress (deckId : String) (progress : FlashcardProgress) (st : Storage) : Storage :=
  let existingProgresses := st.flashcardProgress.getD fun _ => none
  { st with
    flashcardProgress :=
      some fun k => if k = deckId then some progress else existingProgresses k }

/-- `flashcardUtils.loadProgress`: `progresses?.[deckId] || null`. -/
def loadProgress (deckId : String) (st : Storage) : Option FlashcardProgress :=
  match st.flashcardProgress with
  | none => none
  | some progresses => progresses deckId

/-- `flashcardUtils.saveDeckStatistics`: assign under `deckId` in the
`deck_statistics` record and write it back. -/
def saveDeckStatistics (deckId : String) (stats : DeckStatistics) (st : Storage) : Storage :=
  let existingStats := st.deckStatistics.getD fun _ => none
  { st with
    deckStatistics :=
      some fun k => if k = deckId then some stats else existingStats k }

/-- `flashcardUtils.loadDeckStatistics`: `stats?.[deckId] || null`. -/
def loadDeckStatistics (deckId : String) (st : Storage) : Option DeckStatistics :=
  match st.deckStatistics with
  | none => none
  | some stats => stats deckId

/-- The statistics record built by the completion effect of the
`useFlashcards` hook: a fresh record for the session, merged with prior
stored statistics when they exist (`timesCompleted` incremented,
`averageScore` a completion-count-weighted running average rounded with
`Math.round`, `totalStudyTime` accumulated). -/
def completionStatistics (deckId : String) (score totalTime : ℤ) (nowIso : String)
    (st : Storage) : DeckStatistics :=
  let base : DeckStatistics :=
    { deckId := deckId, timesCompleted := 1, averageScore := score,
      lastCompletedAt := nowIso, totalStudyTime := totalTime, favoriteCards := [] }
  match loadDeckStatistics deckId st with
  | none => base
  | some existingStats =>
      { base with
        timesCompleted := existingStats.timesCompleted + 1,
        averageScore :=
          jsRound (((existingStats.averageScore : ℚ) * (existingStats.timesCompleted : ℚ)
              + (score : ℚ)) / ((existingStats.timesCompleted : ℚ) + 1)),
        totalStudyTime := totalTime + existingStats.totalStudyTime,
        favoriteCards := existingStats.favoriteCards }

/-- The storage write performed on completion: build the (possibly merged)
statistics and save them under the deck id. -/
def completeSession (deckId : String) (score totalTime : ℤ) (nowIso : String)
    (st : Storage) : Storage :=
  saveDeckStatistics deckId (completionStatistics deckId score totalTime nowIso st) st

/-! ## Theorems -/

/-- C9: saving session progress for a deck id and then loading progress for
that same deck id returns the identical progress record (in particular the
same `currentCardIndex`, `correctAnswers`, `totalAnswers` and
`totalStudyTime`), when no other save intervenes and the key-value
operations succeed (the model executes them successfully). -/
theorem progress_roundtrip (deckId : String) (p : FlashcardProgress) (st : Storage) :
    loadProgress deckId (saveProgress deckId p st) = some p := by
  simp [loadProgress, saveProgress]

/-- C10: for every index outside `[0, cards.length)`, `goToCard` leaves the
entire session state (index, flip flag, completion flag and progress)
unchanged: an invalid jump is a silent no-op. -/
theorem goToCard_invalid_noop (len : ℕ) (i : ℤ) (s : FlashcardState)
    (h : i < 0 ∨ (len : ℤ) ≤ i) :
    applyAction len (SessionAction.goTo i) s = s := by
  have hguard : ¬(0 ≤ i ∧ i < (len : ℤ)) := by omega
  simp [applyAction, runAction, goToCard, hguard]

/-- Witness for `goToCard_invalid_noop` at the out-of-range index 5 on a
3-card deck. -/
theorem goToCard_invalid_noop_witness :
    applyAction 3 (SessionAction.goTo 5) ⟨1, true, false, 100 / 3⟩ =
      (⟨1, true, false, 100 / 3⟩ : FlashcardState) :=
  goToCard_invalid_noop 3 5 ⟨1, true, false, 100 / 3⟩ (Or.inr (by norm_num))

/-- C8: when prior statistics are stored for the deck, the record persisted
on completion merges the session outcome with the prior record:
`timesCompleted` is incremented, `averageScore` is the completion-count
weighted running average (rounded), and `totalStudyTime` is the sum of the
prior and session study times. -/
theorem deck_statistics_merge (st : Storage) (deckId nowIso : String)
    (prior : DeckStatistics) (score totalTime : ℤ)
    (h : loadDeckStatistics deckId st = some prior) :
    loadDeckStatistics deckId (completeSession deckId score totalTime nowIso st) =
      some { deckId := deckId,
             timesCompleted := prior.timesCompleted + 1,
             averageScore :=
               jsRound (((prior.averageScore : ℚ) * (prior.timesCompleted : ℚ) + (score : ℚ))
                 / ((prior.timesCompleted : ℚ) + 1)),
             lastCompletedAt := nowIso,
             totalStudyTime := prior.totalStudyTime + totalTime,
             favoriteCards := prior.favoriteCards } := by
  simp only [completeSession, completionStatistics, h]
  simp [loadDeckStatistics, saveDeckStatistics, add_comm]

/-- Witness for `deck_statistics_merge`: a deck completed twice before with
average 70 and 100 seconds studied, finished again with score 100 in 50
seconds, is stored as completed 3 times, average 80, 150 seconds. -/
theorem deck_statistics_merge_witness :
    loadDeckStatistics "deck"
        (completeSession "deck" 100 50 "t1"
          ⟨none, some fun k => if k = "deck" then some ⟨"deck", 2, 70, "t0", 100, []⟩ else none⟩) =
      some ⟨"deck", 3, 80, "t1", 150, []⟩ := by
  have h := deck_statistics_merge
    ⟨none, some fun k => if k = "deck" then some ⟨"deck", 2, 70, "t0", 100, []⟩ else none⟩
    "deck" "t1" ⟨"deck", 2, 70, "t0", 100, []⟩ 100 50 (by simp [loadDeckStatistics])
  rw [h]
  norm_num [jsRound]

/-- Counterexample to C2 as stated: for a deck with zero cards the initial
state (which the mount-time effects leave unchanged) has
`currentCardIndex = cards.length = 0` while `isComplete = false`, so
`currentCardIndex == cards.length ⟺ isComplete` fails on the empty deck. -/
theorem empty_deck_completion_mismatch :
    runEffects 0 initState = initState ∧
    initState.currentCardIndex = ((0 : ℕ) : ℤ) ∧
    ¬(initState.isComplete = true ↔ initState.currentCardIndex = ((0 : ℕ) : ℤ)) := by
  refine ⟨?_, by simp [initState], by simp [initState]⟩
  simp [runEffects, progressEffect, completionEffect, initState]

/-- Counterexample to C3 as stated: on the empty deck with `N = 0` the
index equals `cards.length = 0` but `isComplete` is false, refuting the
biconditional for every deck and every `N ≥ 0`. -/
theorem advance_zero_empty_deck :
    (advanceN 0 0 initState).currentCardIndex = ((0 : ℕ) : ℤ) ∧
    ¬((advanceN 0 0 initState).isComplete = true ↔
        (advanceN 0 0 initState).currentCardIndex = ((0 : ℕ) : ℤ)) := by
  constructor <;> simp [advanceN, initState]

/-- Counterexample to C5 as stated: in the Complete state of a 3-card deck,
`flipCard` is not a no-op (it toggles `isFlipped`), and `previousCard` does
change the state (it retreats to index 2 and clears `isComplete`). -/
theorem complete_state_flip_changes :
    (applyAction 3 SessionAction.flip ⟨3, false, true, 100⟩).isFlipped = true ∧
    applyAction 3 SessionAction.flip ⟨3, false, true, 100⟩ ≠
      (⟨3, false, true, 100⟩ : FlashcardState) ∧
    (applyAction 3 SessionAction.prev ⟨3, false, true, 100⟩).currentCardIndex = 2 ∧
    (applyAction 3 SessionAction.prev ⟨3, false, true, 100⟩).isComplete = false := by
  refine ⟨?_, ?_, ?_, ?_⟩ <;>
    simp [applyAction, runAction, flipCard, previousCard, runEffects, progressEffect,
      completionEffect]

/-- Counterexample to C6 as stated: after one `nextCard` on a 3-card deck
the stored progress is the unrounded `100/3`, not
`round(1/3 * 100) = 33`. -/
theorem progress_not_rounded :
    (applyAction 3 SessionAction.next initState).progress = 100 / 3 ∧
    jsRound (((1 : ℚ) / 3) * 100) = 33 ∧
    ((100 : ℚ) / 3) ≠ ((33 : ℤ) : ℚ) := by
  refine ⟨?_, ?_, by norm_num⟩
  · simp [applyAction, runAction, nextCard, runEffects, progressEffect, completionEffect,
      initState]
    norm_num
  · rw [jsRound, show ((1 : ℚ) / 3) * 100 + 1 / 2 = 203 / 6 by norm_num]
    rw [show (33 : ℤ) = ⌊(203 : ℚ) / 6⌋ from by norm_num [Int.floor_eq_iff]]

/-- Counterexample to C4 as stated: the drag `Δx = -30`, `Δy = 0`,
`velocity_x = -600` (screen width 375) satisfies the claimed classification
condition (`|velocity_x| > 300` and `|Δy| ≤ 0.7·|Δx|`) yet the recognizer
snaps back: its velocity branch additionally requires `|Δx| > 50`. -/
theorem velocity_only_drag_snaps_back :
    panGestureOnEnd 375 (-30) 0 (-600) true true = GestureOutcome.snapBack ∧
    (|(-30 : ℚ)| > 375 * (25 / 100) ∨ |(-600 : ℚ)| > 300) ∧
    |(0 : ℚ)| ≤ |(-30 : ℚ)| * (7 / 10) := by
  refine ⟨?_, by norm_num, by norm_num⟩
  norm_num [panGestureOnEnd]

/-- Counterexample to C1 as stated: the drag `Δx = +10` (positive
displacement) with `velocity_x = -600` is classified as a swipe and
produces the left/advance intent — at index 1 of a 3-card deck it advances
to index 2 — contradicting `Δx > 0 → right intent (retreat)`. -/
theorem positive_dx_advances :
    flashCardSwipeIntent 375 10 (-600) = SwipeIntent.left ∧
    (0 : ℚ) < 10 ∧
    (processDrag 375 3 1000 10 (-600) ⟨⟨1, false, false, 100 / 3⟩, 0, false⟩).fs.currentCardIndex
      = 2 := by
  refine ⟨?_, by norm_num, ?_⟩
  · norm_num [flashCardSwipeIntent]
  · norm_num [processDrag, flashCardSwipeIntent, handleSwipeLeft, handleSwipeRight,
      SWIPE_COOLDOWN, canGoNext, applyAction, runAction, nextCard, runEffects,
      progressEffect, completionEffect]

/-- Counterexample to C7 as stated: two flip invocations in immediate
succession (well inside any 150–300 ms window) both execute — the second is
not dropped — so `isFlipped` is toggled twice and ends where it started. -/
theorem double_flip_not_suppressed :
    (handleFlip ⟨initState, 0, false⟩).fs.isFlipped = true ∧
    (handleFlip (handleFlip ⟨initState, 0, false⟩)).fs.isFlipped = initState.isFlipped ∧
    initState.isFlipped = false := by
  refine ⟨?_, ?_, by simp [initState]⟩ <;> simp [handleFlip, flipCard, initState]

/-- C2 (amended): the initial state satisfies the session invariant
(`0 ≤ currentCardIndex ≤ cards.length`, `isComplete → currentCardIndex =
cards.length`, and for nonempty decks the converse), every operation
preserves it, and every operation that changes `currentCardIndex` leaves
`isFlipped = false`.  For the empty deck only the forward direction of the
completion biconditional holds in the initial state (see
`empty_deck_completion_mismatch`). -/
theorem session_invariant_preserved (len : ℕ) (a : SessionAction) (s : FlashcardState)
    (h : sessionInv len s) :
    sessionInv len (applyAction len a s) ∧
    sessionInv len initState ∧
    ((applyAction len a s).currentCardIndex ≠ s.currentCardIndex →
      (applyAction len a s).isFlipped = false) := by
  obtain ⟨h0, h1, h2, h3⟩ := h
  have hinit : sessionInv len initState := by
    refine ⟨le_refl 0, by positivity, by simp [initState], ?_⟩
    intro hl he
    simp only [initState] at he
    omega
  refine ⟨?_, hinit, ?_⟩
  · cases a with
    | flip =>
        simpa [applyAction, runAction, flipCard, sessionInv] using ⟨h0, h1, h2, h3⟩
    | next =>
        by_cases hb : s.currentCardIndex < (len : ℤ) - 1
        · have hne : s.currentCardIndex + 1 ≠ s.currentCardIndex := by omega
          have hce : ¬((len : ℤ) ≤ s.currentCardIndex + 1 ∧ 0 < len) := by omega
          simp only [applyAction, runAction, nextCard, if_pos hb, runEffects,
            progressEffect, completionEffect]
          simp only [sessionInv] at *
          simp only [hne, if_false, hce, if_neg hce]
          refine ⟨by omega, by omega, ?_, by omega⟩
          intro hcomp
          exact absurd (h2 hcomp) (by omega)
        · by_cases heq : s.currentCardIndex = (len : ℤ)
          · have hb2 : ¬((len : ℤ) < (len : ℤ) - 1) := by omega
            simp [applyAction, runAction, nextCard, heq, hb2, sessionInv]
          · have hne : (len : ℤ) ≠ s.currentCardIndex := fun hx => heq hx.symm
            simp only [applyAction, runAction, nextCard, if_neg hb, runEffects,
              progressEffect, completionEffect]
            simp only [sessionInv] at *
            simp only [hne, if_false]
            split_ifs <;> simp_all
    | prev =>
        by_cases hb : 0 < s.currentCardIndex
        · have hne : s.currentCardIndex - 1 ≠ s.currentCardIndex := by omega
          have hce : ¬((len : ℤ) ≤ s.currentCardIndex - 1 ∧ 0 < len) := by omega
          simp only [applyAction, runAction, previousCard, if_pos hb, runEffects,
            progressEffect, completionEffect]
          simp only [sessionInv] at *
          simp only [hne, if_false, if_neg hce]
          exact ⟨by omega, by omega, by simp, by omega⟩
        · simpa [applyAction, runAction, previousCard, if_neg hb, sessionInv]
            using ⟨h0, h1, h2, h3⟩
    | goTo i =>
        by_cases hb : 0 ≤ i ∧ i < (len : ℤ)
        · by_cases heq : i = s.currentCardIndex
          · rw [heq] at hb
            simp [applyAction, runAction, goToCard, heq, if_pos hb, sessionInv]
            omega
          · have hce : ¬((len : ℤ) ≤ i ∧ 0 < len) := by omega
            simp only [applyAction, runAction, goToCard, if_pos hb, runEffects,
              progressEffect, completionEffect]
            simp only [sessionInv] at *
            simp only [heq, if_false, if_neg hce]
            exact ⟨by omega, by omega, by simp, by omega⟩
        · simpa [applyAction, runAction, goToCard, if_neg hb, sessionInv]
            using ⟨h0, h1, h2, h3⟩
    | reset =>
        by_cases heq : (initState.currentCardIndex : ℤ) = s.currentCardIndex
        · simpa [applyAction, runAction, resetDeck, heq] using hinit
        · have hce : ¬((len : ℤ) ≤ initState.currentCardIndex ∧ 0 < len) := by
            simp only [initState]; omega
          simp only [applyAction, runAction, resetDeck, runEffects, progressEffect,
            completionEffect]
          simp only [sessionInv, initState] at *
          simp only [heq, if_false, if_neg hce]
          exact ⟨by omega, by omega, by simp, by omega⟩
  · cases a with
    | flip => simp [applyAction, runAction, flipCard]
    | next =>
        simp only [applyAction, runAction, nextCard, runEffects, progressEffect,
          completionEffect]
        split_ifs <;> simp_all
    | prev =>
        simp only [applyAction, runAction, previousCard, runEffects, progressEffect,
          completionEffect]
        split_ifs <;> simp_all
    | goTo i =>
        simp only [applyAction, runAction, goToCard, runEffects, progressEffect,
          completionEffect]
        split_ifs <;> simp_all
    | reset =>
        simp only [applyAction, runAction, resetDeck, runEffects, progressEffect,
          completionEffect, initState]
        split_ifs <;> simp_all

/-- Closed form of `N` consecutive `nextCard` calls from the initial state:
the index is `min N len`, the card is face down, and the session is
complete exactly when `len ≤ N` and at least one call happened on a deck
that is empty (`advance` completes the empty deck immediately). -/
lemma advanceN_components (len n : ℕ) :
    (advanceN len n initState).currentCardIndex = ((min n len : ℕ) : ℤ) ∧
    (advanceN len n initState).isFlipped = false ∧
    ((advanceN len n initState).isComplete = true ↔ (len ≤ n ∧ (0 < len ∨ 1 ≤ n))) := by
  induction n with
  | zero =>
      refine ⟨by simp [advanceN, initState], by simp [advanceN, initState], ?_⟩
      simp only [advanceN, initState]
      constructor
      · intro hx; exact absurd hx (by simp)
      · intro hx; omega
  | succ n ih =>
      obtain ⟨hi, hf, hc⟩ := ih
      simp only [advanceN]
      cases hS : advanceN len n initState with
      | mk idx fl co pr =>
        rw [hS] at hi hf hc
        dsimp only at hi hf hc
        subst hf
        by_cases hc1 : idx < (len : ℤ) - 1
        · have hne : ¬(idx + 1 = idx) := by omega
          have hce : ¬((len : ℤ) ≤ idx + 1 ∧ 0 < len) := by omega
          refine ⟨?_, ?_, ?_⟩
          · simp only [applyAction, runAction, nextCard, if_pos hc1, runEffects,
              progressEffect, completionEffect, if_neg hne, if_neg hce]
            omega
          · simp only [applyAction, runAction, nextCard, if_pos hc1, runEffects,
              progressEffect, completionEffect, if_neg hne, if_neg hce]
          · simp only [applyAction, runAction, nextCard, if_pos hc1, runEffects,
              progressEffect, completionEffect, if_neg hne, if_neg hce]
            rw [hc]
            omega
        · by_cases hc2 : (len : ℤ) = idx
          · refine ⟨?_, ?_, ?_⟩
            · simp only [applyAction, runAction, nextCard, if_neg hc1, if_pos hc2]
              omega
            · simp only [applyAction, runAction, nextCard, if_neg hc1, if_pos hc2]
            · simp only [applyAction, runAction, nextCard, if_neg hc1, if_pos hc2,
                eq_self_iff_true, true_iff]
              omega
          · by_cases hl : 0 < len
            · have hce : (len : ℤ) ≤ (len : ℤ) ∧ 0 < len := ⟨le_refl _, hl⟩
              refine ⟨?_, ?_, ?_⟩
              · simp only [applyAction, runAction, nextCard, if_neg hc1, if_neg hc2,
                  runEffects, progressEffect, completionEffect, if_pos hce]
                omega
              · simp only [applyAction, runAction, nextCard, if_neg hc1, if_neg hc2,
                  runEffects, progressEffect, completionEffect, if_pos hce]
              · simp only [applyAction, runAction, nextCard, if_neg hc1, if_neg hc2,
                  runEffects, progressEffect, completionEffect, if_pos hce,
                  eq_self_iff_true, true_iff]
                omega
            · exfalso
              omega

/-- Running the two effects always re-establishes the exact-progress
invariant, whatever state the action produced. -/
lemma progressInv_runEffects (len : ℕ) (s : FlashcardState) :
    progressInv len (runEffects len s) := by
  simp only [progressInv, runEffects, completionEffect, progressEffect]
  split_ifs <;> rfl

/-- The exact progress formula is monotone in the index. -/
lemma progressFormula_mono (len : ℕ) (j k : ℤ) (hjk : j ≤ k) :
    (if 0 < len then ((j : ℚ) / (len : ℚ)) * 100 else 0) ≤
      (if 0 < len then ((k : ℚ) / (len : ℚ)) * 100 else 0) := by
  split_ifs with hl
  · have hlQ : (0 : ℚ) < (len : ℚ) := by exact_mod_cast hl
    have hjkQ : (j : ℚ) ≤ (k : ℚ) := by exact_mod_cast hjk
    gcongr
  · exact le_refl 0

/-- C3 (amended): for every deck, `currentCardIndex` after `N` `nextCard`
calls from the initial state equals `min(N, cards.length)`; for decks with
at least one card, `currentCardIndex = cards.length ⟺ isComplete`; on the
empty deck the equivalence holds in the weaker form `isComplete ⟺ N ≥ 1`
(the index always equals the length there, but `isComplete` only becomes
true once `advance` has run — see `advance_zero_empty_deck`). -/
theorem advance_min_completion (len n : ℕ) :
    (advanceN len n initState).currentCardIndex = ((min n len : ℕ) : ℤ) ∧
    (0 < len →
      ((advanceN len n initState).isComplete = true ↔
        (advanceN len n initState).currentCardIndex = (len : ℤ))) ∧
    (len = 0 → ((advanceN len n initState).isComplete = true ↔ 1 ≤ n)) := by
  obtain ⟨hi, hf, hc⟩ := advanceN_components len n
  refine ⟨hi, ?_, ?_⟩
  · intro hl
    rw [hc, hi]
    omega
  · intro hl
    rw [hc]
    omega

/-- Witness for `advance_min_completion`: five advances on a 3-card deck
stop at index `min 5 3 = 3` with the completion equivalence holding. -/
theorem advance_min_completion_witness :
    (advanceN 3 5 initState).currentCardIndex = ((min 5 3 : ℕ) : ℤ) ∧
    ((advanceN 3 5 initState).isComplete = true ↔
      (advanceN 3 5 initState).currentCardIndex = (3 : ℤ)) :=
  ⟨(advance_min_completion 3 5).1, (advance_min_completion 3 5).2.1 (by norm_num)⟩

/-- Witness for `session_invariant_preserved`: the invariant holds on a
3-card deck at index 1 and is preserved by `nextCard`. -/
theorem session_invariant_preserved_witness :
    sessionInv 3 (applyAction 3 SessionAction.next ⟨1, false, false, 100 / 3⟩) ∧
    sessionInv 3 initState :=
  ⟨(session_invariant_preserved 3 SessionAction.next ⟨1, false, false, 100 / 3⟩
      ⟨by norm_num, by norm_num, by simp, by norm_num⟩).1,
   (session_invariant_preserved 3 SessionAction.next ⟨1, false, false, 100 / 3⟩
      ⟨by norm_num, by norm_num, by simp, by norm_num⟩).2.1⟩

/-- C6 (amended): in `useFlashcardState` the stored progress after every
operation is the exact, unrounded value `(currentCardIndex /
cards.length) * 100` (0 for the empty deck); it always lies in `[0, 100]`,
does not decrease under `nextCard` and does not increase under
`previousCard`.  The rounded formula of the claim is computed by
`flashcardUtils.calculateProgress` (used by the `useFlashcards` context
hook), which equals the rounding of the exact stored value. -/
theorem progress_exact_monotone (len : ℕ) (a : SessionAction) (s : FlashcardState)
    (hs : sessionInv len s) (hp : progressInv len s) :
    progressInv len (applyAction len a s) ∧
    0 ≤ s.progress ∧ s.progress ≤ 100 ∧
    s.progress ≤ (applyAction len SessionAction.next s).progress ∧
    (applyAction len SessionAction.prev s).progress ≤ s.progress ∧
    (0 < len → calculateProgress s.currentCardIndex len = jsRound s.progress) := by
  obtain ⟨h0, h1, h2, h3⟩ := hs
  simp only [progressInv] at hp
  have hpres : ∀ b, progressInv len (applyAction len b s) := by
    intro b
    by_cases hch : (runAction len b s).currentCardIndex = s.currentCardIndex
    · simp only [applyAction]
      rw [if_pos hch]
      cases b with
      | flip =>
          simp only [runAction, flipCard, progressInv]
          exact hp
      | next =>
          by_cases hc1 : s.currentCardIndex < (len : ℤ) - 1
          · simp only [runAction, nextCard, if_pos hc1] at hch
            omega
          · simp only [runAction, nextCard, if_neg hc1] at hch ⊢
            simp only [progressInv]
            rw [hp, ← hch]
      | prev =>
          by_cases hc1 : 0 < s.currentCardIndex
          · simp only [runAction, previousCard, if_pos hc1] at hch
            omega
          · simp only [runAction, previousCard, if_neg hc1, progressInv]
            exact hp
      | goTo i =>
          by_cases hc1 : 0 ≤ i ∧ i < (len : ℤ)
          · simp only [runAction, goToCard, if_pos hc1] at hch ⊢
            simp only [progressInv]
            rw [hp, hch]
          · simp only [runAction, goToCard, if_neg hc1, progressInv]
            exact hp
      | reset =>
          simp only [runAction, resetDeck, progressInv, initState]
          norm_num
    · simp only [applyAction]
      rw [if_neg hch]
      exact progressInv_runEffects len _
  have hbounds : 0 ≤ s.progress ∧ s.progress ≤ 100 := by
    rcases Nat.eq_zero_or_pos len with hl | hl
    · rw [hp, if_neg (by omega)]
      norm_num
    · have hlQ : (0 : ℚ) < (len : ℚ) := by exact_mod_cast hl
      have hq0 : (0 : ℚ) ≤ (s.currentCardIndex : ℚ) := by exact_mod_cast h0
      have hql : (s.currentCardIndex : ℚ) ≤ (len : ℚ) := by exact_mod_cast h1
      rw [hp, if_pos hl]
      constructor
      · exact mul_nonneg (div_nonneg hq0 (le_of_lt hlQ)) (by norm_num)
      · rw [div_mul_eq_mul_div, div_le_iff₀ hlQ]
        nlinarith
  have hidx_next : s.currentCardIndex ≤ (applyAction len SessionAction.next s).currentCardIndex := by
    by_cases hc1 : s.currentCardIndex < (len : ℤ) - 1
    · have hne : ¬(s.currentCardIndex + 1 = s.currentCardIndex) := by omega
      have hce : ¬((len : ℤ) ≤ s.currentCardIndex + 1 ∧ 0 < len) := by omega
      simp only [applyAction, runAction, nextCard, if_pos hc1, if_neg hne, runEffects,
        progressEffect, completionEffect, if_neg hce]
      omega
    · by_cases hc2 : (len : ℤ) = s.currentCardIndex
      · simp only [applyAction, runAction, nextCard, if_neg hc1, if_pos hc2]
        omega
      · simp only [applyAction, runAction, nextCard, if_neg hc1, if_neg hc2, runEffects,
          progressEffect, completionEffect]
        split_ifs <;> exact h1
  have hidx_prev : (applyAction len SessionAction.prev s).currentCardIndex ≤ s.currentCardIndex := by
    by_cases hc1 : 0 < s.currentCardIndex
    · have hne : ¬(s.currentCardIndex - 1 = s.currentCardIndex) := by omega
      have hce : ¬((len : ℤ) ≤ s.currentCardIndex - 1 ∧ 0 < len) := by omega
      simp only [applyAction, runAction, previousCard, if_pos hc1, if_neg hne, runEffects,
        progressEffect, completionEffect, if_neg hce]
      omega
    · simp only [applyAction, runAction, previousCard, if_neg hc1]
      simp
  have hnextP := hpres SessionAction.next
  have hprevP := hpres SessionAction.prev
  simp only [progressInv] at hnextP hprevP
  refine ⟨hpres a, hbounds.1, hbounds.2, ?_, ?_, ?_⟩
  · rw [hp, hnextP]
    exact progressFormula_mono len _ _ hidx_next
  · rw [hp, hprevP]
    exact progressFormula_mono len _ _ hidx_prev
  · intro hl
    rw [calculateProgress, if_neg (by omega), hp, if_pos hl]

/-- Witness for `progress_exact_monotone` on a 3-card deck at index 1. -/
theorem progress_exact_monotone_witness :
    progressInv 3 (applyAction 3 SessionAction.next ⟨1, false, false, 100 / 3⟩) ∧
    calculateProgress 1 3 = jsRound (100 / 3 : ℚ) := by
  have h := progress_exact_monotone 3 SessionAction.next ⟨1, false, false, 100 / 3⟩
    ⟨by norm_num, by norm_num, by simp, by norm_num⟩
    (by norm_num [progressInv])
  exact ⟨h.1, h.2.2.2.2.2 (by norm_num)⟩

/-- C5 (amended): in the Complete state (`currentCardIndex = cards.length`,
`isComplete = true`, nonempty deck), `flipCard` toggles `isFlipped` (it has
no Complete-state guard) while keeping the index, and `previousCard` leaves
Complete by retreating to `Active(cards.length - 1)` with `isFlipped =
false` and `isComplete = false` — so retreat is a third way out of
Complete, besides reset and a valid jump. -/
theorem complete_state_transitions (len : ℕ) (s : FlashcardState)
    (h0 : 0 < len) (h1 : s.currentCardIndex = (len : ℤ)) (_hcpl : s.isComplete = true) :
    (applyAction len SessionAction.flip s).isFlipped = !s.isFlipped ∧
    (applyAction len SessionAction.flip s).currentCardIndex = s.currentCardIndex ∧
    (applyAction len SessionAction.prev s).currentCardIndex = (len : ℤ) - 1 ∧
    (applyAction len SessionAction.prev s).isComplete = false ∧
    (applyAction len SessionAction.prev s).isFlipped = false := by
  have hgt : 0 < s.currentCardIndex := by omega
  have hne : ¬(s.currentCardIndex - 1 = s.currentCardIndex) := by omega
  have hce : ¬((len : ℤ) ≤ s.currentCardIndex - 1 ∧ 0 < len) := by omega
  refine ⟨?_, ?_, ?_, ?_, ?_⟩
  · simp [applyAction, runAction, flipCard]
  · simp [applyAction, runAction, flipCard]
  · simp only [applyAction, runAction, previousCard, if_pos hgt, if_neg hne, runEffects,
      progressEffect, completionEffect, if_neg hce]
    omega
  · simp only [applyAction, runAction, previousCard, if_pos hgt, if_neg hne, runEffects,
      progressEffect, completionEffect, if_neg hce]
  · simp only [applyAction, runAction, previousCard, if_pos hgt, if_neg hne, runEffects,
      progressEffect, completionEffect, if_neg hce]

/-- Witness for `complete_state_transitions` on a completed 3-card deck. -/
theorem complete_state_transitions_witness :
    (applyAction 3 SessionAction.prev ⟨3, false, true, 100⟩).currentCardIndex = (3 : ℤ) - 1 ∧
    (applyAction 3 SessionAction.flip ⟨3, false, true, 100⟩).isFlipped = !false :=
  ⟨(complete_state_transitions 3 ⟨3, false, true, 100⟩ (by norm_num) (by norm_num) rfl).2.2.1,
   (complete_state_transitions 3 ⟨3, false, true, 100⟩ (by norm_num) (by norm_num) rfl).1⟩

/-- An accepted `handleSwipeLeft` (outside the cooldown, not animating)
records the gesture time and advances when the guard allows it. -/
lemma handleSwipeLeft_accepted (len : ℕ) (now : ℤ) (sess : ScreenSession)
    (h : ¬(now - sess.lastSwipeTime < SWIPE_COOLDOWN ∨ sess.animating = true)) :
    handleSwipeLeft len now sess =
      { fs := if canGoNext len sess.fs then applyAction len SessionAction.next sess.fs
              else sess.fs,
        lastSwipeTime := now, animating := sess.animating } := by
  simp only [handleSwipeLeft]
  rw [if_neg h]
  split_ifs <;> rfl

/-- A `handleSwipeLeft` inside the cooldown window (or while animating) is
dropped. -/
lemma handleSwipeLeft_dropped (len : ℕ) (now : ℤ) (sess : ScreenSession)
    (h : now - sess.lastSwipeTime < SWIPE_COOLDOWN ∨ sess.animating = true) :
    handleSwipeLeft len now sess = sess := by
  simp only [handleSwipeLeft]
  rw [if_pos h]

/-- An accepted `handleSwipeRight` records the gesture time and retreats
when the guard allows it. -/
lemma handleSwipeRight_accepted (len : ℕ) (now : ℤ) (sess : ScreenSession)
    (h : ¬(now - sess.lastSwipeTime < SWIPE_COOLDOWN ∨ sess.animating = true)) :
    handleSwipeRight len now sess =
      { fs := if canGoPrevious sess.fs then applyAction len SessionAction.prev sess.fs
              else sess.fs,
        lastSwipeTime := now, animating := sess.animating } := by
  simp only [handleSwipeRight]
  rw [if_neg h]
  split_ifs <;> rfl

/-- A `handleSwipeRight` inside the cooldown window (or while animating) is
dropped. -/
lemma handleSwipeRight_dropped (len : ℕ) (now : ℤ) (sess : ScreenSession)
    (h : now - sess.lastSwipeTime < SWIPE_COOLDOWN ∨ sess.animating = true) :
    handleSwipeRight len now sess = sess := by
  simp only [handleSwipeRight]
  rw [if_pos h]

/-- C7 (amended): the 300 ms rapid-fire cooldown applies to swipe
navigation — a second `handleSwipeLeft`/`handleSwipeRight` arriving within
`SWIPE_COOLDOWN` of an accepted one is dropped — but flips are gated only
by the `isAnimating` flag, never by time: while no transition animation is
running, every `handleFlip` toggles `isFlipped`, so two rapid flips toggle
it twice (net zero change) rather than once. -/
theorem flip_cooldown_behavior (len : ℕ) (sess : ScreenSession) (now now2 : ℤ)
    (hA : sess.animating = false) (hc : SWIPE_COOLDOWN ≤ now - sess.lastSwipeTime)
    (h2 : now2 - now < SWIPE_COOLDOWN) :
    (handleFlip sess).fs.isFlipped = !sess.fs.isFlipped ∧
    (handleFlip (handleFlip sess)).fs.isFlipped = sess.fs.isFlipped ∧
    handleSwipeLeft len now2 (handleSwipeLeft len now sess) = handleSwipeLeft len now sess ∧
    handleSwipeRight len now2 (handleSwipeRight len now sess) = handleSwipeRight len now sess := by
  have hnc : ¬(now - sess.lastSwipeTime < SWIPE_COOLDOWN ∨ sess.animating = true) := by
    simp [hA]
    omega
  refine ⟨?_, ?_, ?_, ?_⟩
  · simp [handleFlip, hA, flipCard]
  · simp [handleFlip, hA, flipCard]
  · rw [handleSwipeLeft_accepted len now sess hnc]
    exact handleSwipeLeft_dropped len now2 _ (Or.inl h2)
  · rw [handleSwipeRight_accepted len now sess hnc]
    exact handleSwipeRight_dropped len now2 _ (Or.inl h2)

/-- Witness for `flip_cooldown_behavior`: two flips from the face-down
state return to face-down, and a swipe 100 ms after an accepted one is
dropped. -/
theorem flip_cooldown_behavior_witness :
    (handleFlip (handleFlip ⟨⟨0, true, false, 0⟩, 0, false⟩)).fs.isFlipped = true ∧
    handleSwipeLeft 3 1100 (handleSwipeLeft 3 1000 ⟨⟨0, true, false, 0⟩, 0, false⟩) =
      handleSwipeLeft 3 1000 ⟨⟨0, true, false, 0⟩, 0, false⟩ :=
  ⟨(flip_cooldown_behavior 3 ⟨⟨0, true, false, 0⟩, 0, false⟩ 1000 1100 rfl
      (by norm_num [SWIPE_COOLDOWN]) (by norm_num [SWIPE_COOLDOWN])).2.1,
   (flip_cooldown_behavior 3 ⟨⟨0, true, false, 0⟩, 0, false⟩ 1000 1100 rfl
      (by norm_num [SWIPE_COOLDOWN]) (by norm_num [SWIPE_COOLDOWN])).2.2.1⟩

/-- C1 (amended): the recognizer attached to the rendered card
(`FlashCard.tsx`) produces the right intent exactly when `Δx >
0.25·screenWidth` or `velocity_x > 500` (so in particular for every
sufficiently large positive displacement), otherwise the left intent
exactly when `Δx < -0.25·screenWidth` or `velocity_x < -500` — the
direction follows the velocity sign when only the velocity threshold is
exceeded, which can disagree with the sign of a small `Δx` (see
`positive_dx_advances`).  Right maps to `previousCard` gated by
`canGoPrevious`, left maps to `nextCard` gated by `canGoNext`, a failed
guard leaves the session state unchanged (snap-back), and the concrete drag
`Δx = -60`, `velocity_x = -600` on a 3-card deck at index 0 ends at index 1
with `isFlipped = false`. -/
theorem swipe_direction_mapping :
    (∀ sw tx vx : ℚ, flashCardSwipeIntent sw tx vx = SwipeIntent.right ↔
      (sw * (25 / 100) < tx ∨ 500 < vx)) ∧
    (∀ sw tx vx : ℚ, flashCardSwipeIntent sw tx vx = SwipeIntent.left ↔
      (¬(sw * (25 / 100) < tx ∨ 500 < vx) ∧ (tx < -(sw * (25 / 100)) ∨ vx < -500))) ∧
    (∀ (sw : ℚ) (len : ℕ) (now : ℤ) (tx vx : ℚ) (sess : ScreenSession),
      sessionReady now sess →
      (flashCardSwipeIntent sw tx vx = SwipeIntent.right →
        (canGoPrevious sess.fs = true →
          (processDrag sw len now tx vx sess).fs = applyAction len SessionAction.prev sess.fs) ∧
        (canGoPrevious sess.fs = false →
          (processDrag sw len now tx vx sess).fs = sess.fs)) ∧
      (flashCardSwipeIntent sw tx vx = SwipeIntent.left →
        (canGoNext len sess.fs = true →
          (processDrag sw len now tx vx sess).fs = applyAction len SessionAction.next sess.fs) ∧
        (canGoNext len sess.fs = false →
          (processDrag sw len now tx vx sess).fs = sess.fs)) ∧
      (flashCardSwipeIntent sw tx vx = SwipeIntent.stay →
        (processDrag sw len now tx vx sess).fs = sess.fs)) ∧
    ((processDrag 375 3 1000 (-60) (-600) ⟨initState, 0, false⟩).fs.currentCardIndex = 1 ∧
     (processDrag 375 3 1000 (-60) (-600) ⟨initState, 0, false⟩).fs.isFlipped = false) := by
  refine ⟨?_, ?_, ?_, ?_, ?_⟩
  · intro sw tx vx
    simp only [flashCardSwipeIntent]
    split_ifs with h1 h2 <;> simp [h1]
  · intro sw tx vx
    simp only [flashCardSwipeIntent]
    split_ifs with h1 h2 <;> simp_all
  · intro sw len now tx vx sess hready
    obtain ⟨hAn, hcool⟩ := hready
    have hnc : ¬(now - sess.lastSwipeTime < SWIPE_COOLDOWN ∨ sess.animating = true) := by
      simp [hAn]
      omega
    refine ⟨?_, ?_, ?_⟩
    · intro hint
      rw [processDrag, hint]
      simp only [handleSwipeRight]
      rw [if_neg hnc]
      constructor
      · intro hg
        rw [if_pos hg]
      · intro hg
        rw [if_neg (by simp [hg])]
    · intro hint
      rw [processDrag, hint]
      simp only [handleSwipeLeft]
      rw [if_neg hnc]
      constructor
      · intro hg
        rw [if_pos hg]
      · intro hg
        rw [if_neg (by simp [hg])]
    · intro hint
      rw [processDrag, hint]
  · norm_num [processDrag, flashCardSwipeIntent, handleSwipeLeft, handleSwipeRight,
      SWIPE_COOLDOWN, canGoNext, applyAction, runAction, nextCard, runEffects,
      progressEffect, completionEffect, initState]
  · norm_num [processDrag, flashCardSwipeIntent, handleSwipeLeft, handleSwipeRight,
      SWIPE_COOLDOWN, canGoNext, applyAction, runAction, nextCard, runEffects,
      progressEffect, completionEffect, initState]

/-- Witness for `swipe_direction_mapping`: a ready session at index 1 of a
3-card deck processes a large rightward drag as `previousCard`. -/
theorem swipe_direction_mapping_witness :
    (processDrag 375 3 1000 100 0 ⟨⟨1, false, false, 100 / 3⟩, 0, false⟩).fs =
      applyAction 3 SessionAction.prev (⟨1, false, false, 100 / 3⟩ : FlashcardState) :=
  ((swipe_direction_mapping.2.2.1 375 3 1000 100 0 ⟨⟨1, false, false, 100 / 3⟩, 0, false⟩
      ⟨rfl, by norm_num [SWIPE_COOLDOWN]⟩).1
    (by norm_num [flashCardSwipeIntent])).1 (by decide)

/-- C4 (amended): with both guards enabled, the `onEnd` handler of
`useFlashcardGestures` classifies a completed drag as a swipe exactly when
`|Δy| ≤ 0.7·|Δx|` and (`|Δx| > 0.25·screenWidth`, or `|Δx| > 50` with
`|velocity_x| > 300` and the velocity pointing in the same direction as the
displacement) — the velocity branch carries the extra `|Δx| > 50`
sign-matched requirement the claim omits; and every drag with `|Δy| >
0.7·|Δx|` snaps back with no transition, whatever the guards. -/
theorem pan_end_classification (sw tx ty vx : ℚ) :
    (panGestureOnEnd sw tx ty vx true true ≠ GestureOutcome.snapBack ↔
      (|ty| ≤ |tx| * (7 / 10) ∧
        (sw * (25 / 100) < |tx| ∨ (50 < |tx| ∧ 300 < |vx| ∧ 0 < tx * vx)))) ∧
    (∀ l r : Bool, |tx| * (7 / 10) < |ty| →
      panGestureOnEnd sw tx ty vx l r = GestureOutcome.snapBack) := by
  constructor
  · by_cases hv : |tx| * (7 / 10) < |ty|
    · simp only [panGestureOnEnd]
      rw [if_pos hv]
      constructor
      · intro h
        exact absurd rfl h
      · rintro ⟨h1, -⟩
        exact absurd hv (not_lt.mpr h1)
    · have hty : |ty| ≤ |tx| * (7 / 10) := not_lt.mp hv
      simp only [panGestureOnEnd]
      rw [if_neg hv]
      simp only [and_true]
      split_ifs with hL hR
      · refine ⟨fun _ => ⟨hty, ?_⟩, fun _ h => GestureOutcome.noConfusion h⟩
        rcases hL with h | ⟨ha, hb⟩
        · exact Or.inl (lt_of_lt_of_le h (le_abs_self tx))
        · refine Or.inr ⟨lt_of_lt_of_le ha (le_abs_self tx),
            lt_of_lt_of_le hb (le_abs_self vx), ?_⟩
          exact mul_pos (lt_trans (by norm_num) ha) (lt_trans (by norm_num) hb)
      · refine ⟨fun _ => ⟨hty, ?_⟩, fun _ h => GestureOutcome.noConfusion h⟩
        rcases hR with h | ⟨ha, hb⟩
        · exact Or.inl (lt_of_lt_of_le (by linarith) (neg_le_abs tx))
        · refine Or.inr ⟨lt_of_lt_of_le (by linarith) (neg_le_abs tx),
            lt_of_lt_of_le (by linarith) (neg_le_abs vx), ?_⟩
          have htx : tx < 0 := by linarith
          have hvx : vx < 0 := by linarith
          exact mul_pos_of_neg_of_neg htx hvx
      · refine ⟨fun h => absurd rfl h, ?_⟩
        rintro ⟨-, hth | ⟨h50, h300, hprod⟩⟩
        · rcases abs_cases tx with ⟨he, hsign⟩ | ⟨he, hsign⟩
          · rw [he] at hth
            exact absurd (Or.inl hth) hL
          · rw [he] at hth
            exact absurd (Or.inl (by linarith)) hR
        · rcases mul_pos_iff.mp hprod with ⟨htx, hvx⟩ | ⟨htx, hvx⟩
          · rw [abs_of_pos htx] at h50
            rw [abs_of_pos hvx] at h300
            exact absurd (Or.inr ⟨h50, h300⟩) hL
          · rw [abs_of_neg htx] at h50
            rw [abs_of_neg hvx] at h300
            exact absurd (Or.inr ⟨by linarith, by linarith⟩) hR
  · intro l r h
    simp only [panGestureOnEnd]
    rw [if_pos h]

/-- Witness for `pan_end_classification`: the vertical-dominant drag
`Δx = -40`, `Δy = 80` snaps back. -/
theorem pan_end_classification_witness :
    panGestureOnEnd 375 (-40) 80 (-600) true true = GestureOutcome.snapBack :=
  (pan_end_classification 375 (-40) 80 (-600)).2 true true (by norm_num)

end Flashcards
